import Mathlib

/-!
Shallow embedding of the discord-language-loader core
(src/core/LanguageLoader.js, src/services/LanguageFileService.js,
src/utils/validationUtils.js) in Lean 4.

Modelling conventions:
* JavaScript runtime values appearing in the language store are modelled by
  `JSValue` (null, undefined, booleans, strings, numbers, plain objects).
  Arrays are not modelled; no claim involves array-valued documents.
* JS `Map` objects are modelled by association lists with JS `Map` insertion
  semantics (`mapSet` replaces in place, `assocLookup` finds the entry,
  `jsMapGet` returns `vUndefined` for an absent key like `Map.get`).
* The filesystem is a snapshot passed explicitly: a directory listing
  `List String` (or `Option` of it when `fs.readdir` may fail inside a
  try/catch), and a read function `String → Option String` where `none`
  models a thrown read error. A change event is modelled by the file path
  plus the read outcome at event time.
* The external format decoders (js-yaml / JSON.parse / toml) are abstracted
  as `decode : String → String → Option JSValue` (extension, raw content);
  `none` models a thrown decode exception. They are out-of-scope external
  collaborators per the specification.
* `emit` calls are modelled by returning the list of emitted events.
-/

/-- A JavaScript runtime value, as stored in the language maps. -/
inductive JSValue : Type where
  | vNull : JSValue
  | vUndefined : JSValue
  | vBool : Bool → JSValue
  | vStr : String → JSValue
  | vNum : Int → JSValue
  | vObj : List (String × JSValue) → JSValue

/-- JavaScript truthiness of a `JSValue`. -/
def truthy : JSValue → Bool
  | .vNull => false
  | .vUndefined => false
  | .vBool b => b
  | .vStr s => !s.isEmpty
  | .vNum n => n != 0
  | .vObj _ => true

/-- First-match association lookup (JS `Map.get`, as an `Option`). -/
def assocLookup {α : Type} : List (String × α) → String → Option α
  | [], _ => none
  | (k0, v) :: rest, k => if k0 = k then some v else assocLookup rest k

/-- JS `Map.set`: replace in place if the key exists, else append. -/
def mapSet {α : Type} : List (String × α) → String → α → List (String × α)
  | [], k, v => [(k, v)]
  | (k0, v0) :: rest, k, v =>
    if k0 = k then (k0, v) :: rest else (k0, v0) :: mapSet rest k v

/-- JS `Map.has`. -/
def mapHas {α : Type} (m : List (String × α)) (k : String) : Bool :=
  (assocLookup m k).isSome

/-- JS `Map.get` on a map of `JSValue`s: `undefined` when the key is absent. -/
def jsMapGet (m : List (String × JSValue)) (k : String) : JSValue :=
  (assocLookup m k).getD JSValue.vUndefined

/-- Node `path.basename(p)`: the substring after the last `/`
(paths without trailing slashes, which is all the loader produces). -/
def basenameOnly (p : String) : String :=
  String.mk ((p.toList.reverse.takeWhile (fun c => c ≠ '/')).reverse)

/-- Node `path.extname` on a basename: from the last dot to the end, empty
when there is no dot or the only dot is the leading character. -/
def extOfBase (b : String) : String :=
  let cs := b.toList
  let afterDotRev := cs.reverse.takeWhile (fun c => c ≠ '.')
  if afterDotRev.length = cs.length then ""
  else if cs.length - afterDotRev.length - 1 = 0 then ""
  else String.mk ('.' :: afterDotRev.reverse)

/-- Node `path.extname(p)`. -/
def extname (p : String) : String :=
  extOfBase (basenameOnly p)

/-- ASCII lowercasing on the character list (kernel-reducible version of
`String.toLower`, matching JS `toLowerCase` on ASCII extensions). -/
def strToLower (s : String) : String :=
  String.mk (s.toList.map Char.toLower)

/-- String suffix test on the character lists (kernel-reducible version of
`String.endsWith`). -/
def strEndsWith (s suffix : String) : Bool :=
  List.isSuffixOf suffix.toList s.toList

/-- Drop the last `n` characters of a string. -/
def strDropRight (s : String) (n : Nat) : String :=
  String.mk (s.toList.take (s.toList.length - n))

/-- Node `path.basename(p, ext)`: the basename, with the suffix `ext`
removed when it is a proper suffix. -/
def basenameExt (p : String) (ext : String) : String :=
  let name := basenameOnly p
  if ext.length > 0 && strEndsWith name ext && name.length > ext.length then
    strDropRight name ext.length
  else name

/-- `isValidLanguageKey` from src/utils/validationUtils.js:
the regex test `^[a-z]{2}_[A-Z]{2}$`. -/
def isValidLanguageKey (key : String) : Bool :=
  match key.toList with
  | [c1, c2, u, c3, c4] =>
    ('a' ≤ c1 && c1 ≤ 'z') && ('a' ≤ c2 && c2 ≤ 'z') && u = '_' &&
    ('A' ≤ c3 && c3 ≤ 'Z') && ('A' ≤ c4 && c4 ≤ 'Z')
  | _ => false

/-- The extension whitelist `[".yaml", ".yml", ".json", ".toml"]` used by
`loadLanguages`, the watch handler and `updateLanguage`. -/
def recognizedExtensions : List String :=
  [".yaml", ".yml", ".json", ".toml"]

/-- `LanguageFileService.loadLanguageFile` from
src/services/LanguageFileService.js: reads the file, dispatches on the
lowercased extension to a decoder, and returns `null` when the read or the
decode throws (or the extension is unsupported, which also throws). -/
def loadLanguageFile (filePath : String) (readResult : Option String)
    (decode : String → String → Option JSValue) : JSValue :=
  match readResult with
  | none => JSValue.vNull
  | some fileContent =>
    let ext := strToLower (extname filePath)
    if ext = ".yaml" ∨ ext = ".yml" ∨ ext = ".json" ∨ ext = ".toml" then
      match decode ext fileContent with
      | none => JSValue.vNull
      | some data => data
    else
      JSValue.vNull

/-- The mutable state of a `LanguageLoader` instance: the two maps and the
configured default/fallback codes. -/
structure LoaderState : Type where
  languages : List (String × JSValue)
  fileContents : List (String × String)
  defaultLanguage : String
  fallbackLanguage : String

/-- Events emitted through the `EventEmitter`.  The watch handler emits
`languageLoaded`/`languageUpdated` with payload `{ langName, langData }`;
`updateLanguage` emits `languageUpdated` with payload `{ langKey, langData }`,
modelled as the separate constructor `languageUpdatedKey`. -/
inductive LoaderEvent : Type where
  | languageLoaded : String → JSValue → LoaderEvent
  | languageUpdated : String → JSValue → LoaderEvent
  | languageUpdatedKey : String → JSValue → LoaderEvent

/-- The chokidar `change` handler of `watchLanguageFiles`
(src/core/LanguageLoader.js lines 112-172), for one stabilized change event.
`readResult` is the outcome of the handler's own `fs.readFile`; the same
filesystem snapshot feeds the inner `loadLanguageFile` read. -/
def watchChangeHandler (st : LoaderState) (filePath : String)
    (readResult : Option String) (decode : String → String → Option JSValue) :
    LoaderState × List LoaderEvent :=
  let filename := basenameOnly filePath
  let ext := strToLower (extname filename)
  if recognizedExtensions.contains ext = false then (st, [])
  else
    match readResult with
    | none => (st, [])
    | some newFileContent =>
      let langName := basenameExt filename ext
      if isValidLanguageKey langName = false then (st, [])
      else
        match assocLookup st.fileContents langName with
        | none =>
          let langData := loadLanguageFile filePath readResult decode
          match langData with
          | JSValue.vNull => (st, [])
          | _ =>
            ({ st with
                languages := mapSet st.languages langName langData,
                fileContents := mapSet st.fileContents langName newFileContent },
             [LoaderEvent.languageLoaded langName langData])
        | some oldFileContent =>
          if oldFileContent ≠ newFileContent then
            let langData := loadLanguageFile filePath readResult decode
            match langData with
            | JSValue.vNull => (st, [])
            | _ =>
              ({ st with
                  languages := mapSet st.languages langName langData,
                  fileContents := mapSet st.fileContents langName newFileContent },
               [LoaderEvent.languageUpdated langName langData])
          else (st, [])

/-- Accumulator state of the initial bulk load `loadLanguages`
(src/core/LanguageLoader.js lines 52-97).  `validated` records the language
names passed to `isValidLanguageKey`, modelling which filenames the loop
actually validates; `loadedCount` mirrors the `loadedCount` counter. -/
structure BulkState : Type where
  languages : List (String × JSValue)
  fileContents : List (String × String)
  loadedCount : Nat
  validated : List String

/-- One iteration of the `for (const file of files)` loop of `loadLanguages`:
extension filter, `loadLanguageFile`, truthiness check on the parse result,
key validation, second read, then store/cache/count.  `fsys` maps a filename
in the language folder to its content (`none` models a read error). -/
def loadLanguagesStep (fsys : String → Option String)
    (decode : String → String → Option JSValue)
    (acc : BulkState) (file : String) : BulkState :=
  let ext := strToLower (extname file)
  if recognizedExtensions.contains ext then
    let langData := loadLanguageFile file (fsys file) decode
    if truthy langData then
      let langName := basenameExt file ext
      let acc1 : BulkState := { acc with validated := acc.validated ++ [langName] }
      if isValidLanguageKey langName then
        match fsys file with
        | none => acc1
        | some fileContent =>
          { acc1 with
              languages := mapSet acc1.languages langName langData,
              fileContents := mapSet acc1.fileContents langName fileContent,
              loadedCount := acc1.loadedCount + 1 }
      else acc1
    else acc
  else acc

/-- `loadLanguages` (src/core/LanguageLoader.js lines 52-97): reads the
directory listing (`none` models `fs.readdir` throwing, caught by the
surrounding try/catch, which leaves the maps empty) and folds the per-file
loop over the listing. -/
def loadLanguages (listing : Option (List String))
    (fsys : String → Option String)
    (decode : String → String → Option JSValue) : BulkState :=
  match listing with
  | none => ⟨[], [], 0, []⟩
  | some files => files.foldl (loadLanguagesStep fsys decode) ⟨[], [], 0, []⟩

/-- Constructor options `{ folderLang, defaultLang, fallbackLang, debug }`. -/
structure LoaderConfig : Type where
  defaultLang : String
  fallbackLang : String
  debug : Bool

/-- Result of running the constructor: the loader state after the initial
bulk load, and whether `watchLanguageFiles` was reached (the watch
subscription was started). -/
structure ConstructResult : Type where
  st : LoaderState
  watching : Bool

/-- The `LanguageLoader` constructor (src/core/LanguageLoader.js lines
23-46): initializes empty maps, validates the default and fallback keys in
order, and only when both validate runs `loadLanguages` and
`watchLanguageFiles`. -/
def mkLoader (cfg : LoaderConfig) (listing : Option (List String))
    (fsys : String → Option String)
    (decode : String → String → Option JSValue) : ConstructResult :=
  let st0 : LoaderState := ⟨[], [], cfg.defaultLang, cfg.fallbackLang⟩
  if isValidLanguageKey cfg.defaultLang = false then ⟨st0, false⟩
  else if isValidLanguageKey cfg.fallbackLang = false then ⟨st0, false⟩
  else
    let bulk := loadLanguages listing fsys decode
    ⟨{ st0 with languages := bulk.languages, fileContents := bulk.fileContents },
     true⟩

/-- `updateLanguage` (src/core/LanguageLoader.js lines 229-263), the manual
forceReload.  The outer `Option` is `none` exactly when `fs.readdir` throws
while resolving an omitted `filePath` (that `await` is not inside a
try/catch, so the rejection propagates to the caller).  Note the source
stores `langData` unconditionally — there is no `null` check after
`loadLanguageFile`. -/
def updateLanguage (st : LoaderState) (langKey : String)
    (filePathArg : Option String) (listing : Option (List String))
    (fsys : String → Option String)
    (decode : String → String → Option JSValue) :
    Option (LoaderState × List LoaderEvent) :=
  if isValidLanguageKey langKey = false then some (st, [])
  else
    let resolved : Option (Option String) :=
      match filePathArg with
      | some p => some (some p)
      | none =>
        match listing with
        | none => none
        | some files =>
          some (files.find? fun f =>
            basenameExt f (extname f) = langKey &&
            recognizedExtensions.contains (strToLower (extname f)))
    match resolved with
    | none => none
    | some none => some (st, [])
    | some (some filePath) =>
      match fsys filePath with
      | none => some (st, [])
      | some newFileContent =>
        let langData := loadLanguageFile filePath (fsys filePath) decode
        some
          ({ st with
              languages := mapSet st.languages langKey langData,
              fileContents := mapSet st.fileContents langKey newFileContent },
           [LoaderEvent.languageUpdatedKey langKey langData])

/-- `loadlang` (src/core/LanguageLoader.js lines 180-190), the spec's
`resolveLanguage`: invalid key or absent entry resolve to the fallback
language's entry; a present entry (tested with `Map.has`) is returned as
stored. -/
def loadlang (st : LoaderState) (languageKey : String) : JSValue :=
  if isValidLanguageKey languageKey = false then
    jsMapGet st.languages st.fallbackLanguage
  else if mapHas st.languages languageKey then
    jsMapGet st.languages languageKey
  else
    jsMapGet st.languages st.fallbackLanguage

/-- Split a character list at every occurrence of `sep`, keeping empty
pieces (the semantics of JS `String.prototype.split` with a single-character
separator). -/
def splitCharList (sep : Char) : List Char → List (List Char)
  | [] => [[]]
  | c :: rest =>
    let r := splitCharList sep rest
    if c = sep then [] :: r
    else
      match r with
      | [] => [[c]]
      | h :: t => (c :: h) :: t

/-- JS `messageKey.split(".")` (kernel-reducible version of
`String.splitOn "."`; note `"".split(".")` is `[""]` in both). -/
def strSplitOnDot (s : String) : List String :=
  (splitCharList '.' s.toList).map String.mk

/-- The dotted-path walk of `loadlangmsg` (src/core/LanguageLoader.js lines
213-222): `result && typeof result === "object" && key in result` — only a
(truthy) object with the key present is traversable; otherwise the
diagnostic string is returned. -/
def walkKeys (langKey : String) (messageKey : String) :
    List String → JSValue → JSValue
  | [], result => result
  | key :: rest, result =>
    match result with
    | JSValue.vObj fields =>
      match assocLookup fields key with
      | some v => walkKeys langKey messageKey rest v
      | none =>
        JSValue.vStr
          ("Message key \"" ++ messageKey ++ "\" nicht gefunden in \"" ++
            langKey ++ "\".")
    | _ =>
      JSValue.vStr
        ("Message key \"" ++ messageKey ++ "\" nicht gefunden in \"" ++
          langKey ++ "\".")

/-- `loadlangmsg` (src/core/LanguageLoader.js lines 196-223), the spec's
`resolveMessage`: validate the key, take the entry for `langKey` if truthy,
else the fallback entry if truthy, else a "Weder ..." diagnostic; then walk
the dotted path. -/
def loadlangmsg (st : LoaderState) (langKey : String) (messageKey : String) :
    JSValue :=
  if isValidLanguageKey langKey = false then
    JSValue.vStr ("Ungültiger Sprachschlüssel \"" ++ langKey ++ "\".")
  else
    let d0 := jsMapGet st.languages langKey
    if truthy d0 then
      walkKeys langKey messageKey (strSplitOnDot messageKey) d0
    else
      let d1 := jsMapGet st.languages st.fallbackLanguage
      if truthy d1 then
        walkKeys langKey messageKey (strSplitOnDot messageKey) d1
      else
        JSValue.vStr
          ("Weder \"" ++ langKey ++ "\" noch Fallback \"" ++
            st.fallbackLanguage ++ "\" vorhanden.")

/-- The tree `loadlangmsg` actually walks for a valid `langKey`: the entry
for `langKey` when truthy, else the fallback language's entry.  Used to
state hypotheses about the traversal. -/
def effectiveLangData (st : LoaderState) (langKey : String) : JSValue :=
  let d0 := jsMapGet st.languages langKey
  if truthy d0 then d0 else jsMapGet st.languages st.fallbackLanguage

/-- Successful dotted-path resolution: `some` of the reached value when every
segment is present in a traversable node, `none` on any failure.  Mirrors
the success condition of `walkKeys`. -/
def pathResolves : JSValue → List String → Option JSValue
  | d, [] => some d
  | d, key :: rest =>
    match d with
    | JSValue.vObj fields =>
      match assocLookup fields key with
      | some v => pathResolves v rest
      | none => none
    | _ => none

/-- All keys of an association list satisfy the locale-code predicate. -/
def allKeysValid {α : Type} (m : List (String × α)) : Bool :=
  m.all fun p => isValidLanguageKey p.1

/-- The language name a change event for `filePath` is keyed under:
`path.basename(path.basename(filePath), ext)` with the lowercased extension,
exactly the `langName` computed by the watch handler. -/
def watchExt (filePath : String) : String :=
  strToLower (extname (basenameOnly filePath))

/-- The `langName` the watch handler derives from `filePath`. -/
def watchLangName (filePath : String) : String :=
  basenameExt (basenameOnly filePath) (watchExt filePath)

/-- A sample language tree `{ welcome: { message: "Hello" } }`. -/
def demoTree : JSValue :=
  JSValue.vObj [("welcome", JSValue.vObj [("message", JSValue.vStr "Hello")])]

/-- A sample loader state with `en_UK` loaded and raw text `"old"` cached. -/
def demoState : LoaderState :=
  ⟨[("en_UK", demoTree)], [("en_UK", "old")], "en_UK", "en_UK"⟩

/-- A sample state whose default (`de_DE`) and fallback (`en_UK`) languages
hold different trees. -/
def demoStateTwo : LoaderState :=
  ⟨[("en_UK", JSValue.vStr "english"), ("de_DE", JSValue.vStr "german")],
   [], "de_DE", "en_UK"⟩

/-- A sample state whose `fr_FR` entry is present but holds `null`. -/
def demoStateNull : LoaderState :=
  ⟨[("fr_FR", JSValue.vNull), ("en_UK", demoTree)], [], "en_UK", "en_UK"⟩

theorem strAppendAssoc (a b c : String) : a ++ b ++ c = a ++ (b ++ c) := by
  cases a
  cases b
  cases c
  show String.append (String.append _ _) _ = String.append _ (String.append _ _)
  simp only [String.append]
  exact congrArg String.mk (List.append_assoc _ _ _)

/-- C1: the claim says `forceReload` (`updateLanguage`) retains the prior
store entry when the parse fails.  The source has no null check after
`loadLanguageFile`: at this concrete input — `en_UK` previously loaded with
a good tree, the file now unparseable — the entry is overwritten with
`null` (and a `languageUpdated` event carrying `null` is emitted), so the
stored tree does not survive a failed parse. -/
theorem updateLanguage_parseFailure_overwritesWithNull :
    updateLanguage demoState "en_UK" (some "en_UK.json") none
        (fun _ => some "not-json") (fun _ _ => none) =
      some
        (⟨[("en_UK", JSValue.vNull)], [("en_UK", "not-json")],
          "en_UK", "en_UK"⟩,
         [LoaderEvent.languageUpdatedKey "en_UK" JSValue.vNull]) ∧
    jsMapGet demoState.languages "en_UK" = demoTree ∧
    demoTree ≠ JSValue.vNull := by
  refine ⟨rfl, rfl, ?_⟩
  intro h
  exact JSValue.noConfusion h

/-- C8: when the default or the fallback language code fails validation, the
constructor returns before `loadLanguages` and `watchLanguageFiles`, so the
language store and the raw-text cache stay empty and no watch subscription
is started. -/
theorem mkLoader_invalidConfig_inert (cfg : LoaderConfig)
    (listing : Option (List String)) (fsys : String → Option String)
    (decode : String → String → Option JSValue)
    (h : isValidLanguageKey cfg.defaultLang = false ∨
         isValidLanguageKey cfg.fallbackLang = false) :
    (mkLoader cfg listing fsys decode).st.languages = [] ∧
    (mkLoader cfg listing fsys decode).st.fileContents = [] ∧
    (mkLoader cfg listing fsys decode).watching = false := by
  unfold mkLoader
  rcases h with h | h
  · simp [h]
  · cases hd : isValidLanguageKey cfg.defaultLang <;> simp [h, hd]

theorem mkLoader_invalidConfig_inert_witness :
    (mkLoader ⟨"xx", "en_UK", false⟩ (some ["en_UK.json"])
        (fun _ => some "x") (fun _ _ => some demoTree)).st.languages = [] ∧
    (mkLoader ⟨"xx", "en_UK", false⟩ (some ["en_UK.json"])
        (fun _ => some "x") (fun _ _ => some demoTree)).st.fileContents = [] ∧
    (mkLoader ⟨"xx", "en_UK", false⟩ (some ["en_UK.json"])
        (fun _ => some "x") (fun _ _ => some demoTree)).watching = false :=
  mkLoader_invalidConfig_inert ⟨"xx", "en_UK", false⟩ (some ["en_UK.json"])
    (fun _ => some "x") (fun _ _ => some demoTree) (Or.inl (by decide))

/-- C4: a watch change event whose raw content is byte-identical to the
cached raw text is a no-op: for every decoder (hence without any reparse)
the handler returns the state unchanged — same stored tree, same cache —
and emits no notification. -/
theorem watch_identicalContent_noop (st : LoaderState)
    (filePath content : String)
    (hold : assocLookup st.fileContents (watchLangName filePath) =
      some content) :
    ∀ decode, watchChangeHandler st filePath (some content) decode =
      (st, []) := by
  intro decode
  simp only [watchLangName, watchExt] at hold
  unfold watchChangeHandler
  dsimp only
  split
  · rfl
  · split
    · rfl
    · rw [hold]
      exact if_neg (fun h => h rfl)

theorem watch_identicalContent_noop_witness :
    watchChangeHandler demoState "en_UK.json" (some "old")
      (fun _ _ => some (JSValue.vStr "reparsed")) = (demoState, []) :=
  watch_identicalContent_noop demoState "en_UK.json" "old" (by decide)
    (fun _ _ => some (JSValue.vStr "reparsed"))

/-- C2: for a code in state Loaded, a change event whose content differs
from the cached raw text but whose parse fails leaves the whole state —
stored tree and cached raw text — unchanged and emits nothing, so any
subsequent `loadlangmsg` (resolveMessage) still returns the prior value. -/
theorem watch_parseFailure_retainsOldTree (st : LoaderState)
    (filePath newContent oldContent : String)
    (decode : String → String → Option JSValue)
    (hold : assocLookup st.fileContents (watchLangName filePath) =
      some oldContent)
    (hdiff : oldContent ≠ newContent)
    (hparse : loadLanguageFile filePath (some newContent) decode =
      JSValue.vNull) :
    watchChangeHandler st filePath (some newContent) decode = (st, []) ∧
    ∀ k m,
      loadlangmsg (watchChangeHandler st filePath (some newContent) decode).1
          k m =
        loadlangmsg st k m := by
  simp only [watchLangName, watchExt] at hold
  have h1 : watchChangeHandler st filePath (some newContent) decode =
      (st, []) := by
    unfold watchChangeHandler
    dsimp only
    split
    · rfl
    · split
      · rfl
      · rw [hold]
        dsimp only
        rw [if_pos hdiff, hparse]
  exact ⟨h1, fun k m => by rw [h1]⟩

theorem watch_parseFailure_retainsOldTree_witness :
    watchChangeHandler demoState "en_UK.json" (some "broken")
        (fun _ _ => none) = (demoState, []) ∧
    loadlangmsg
        (watchChangeHandler demoState "en_UK.json" (some "broken")
          (fun _ _ => none)).1 "en_UK" "welcome.message" =
      JSValue.vStr "Hello" :=
  ⟨(watch_parseFailure_retainsOldTree demoState "en_UK.json" "broken" "old"
      (fun _ _ => none) (by decide) (by decide) rfl).1,
   by
    rw [(watch_parseFailure_retainsOldTree demoState "en_UK.json" "broken"
        "old" (fun _ _ => none) (by decide) (by decide) rfl).1]
    rfl⟩

/-- C7: for a valid code with no cached raw text (state Unseen), a change
event whose content parses to a non-null document creates the store entry,
caches the raw text, and emits exactly one `languageLoaded` ("added")
notification carrying the code and the new tree — not `languageUpdated`. -/
theorem watch_firstSeen_emitsLoaded (st : LoaderState)
    (filePath newContent : String)
    (decode : String → String → Option JSValue) (d : JSValue)
    (hext : recognizedExtensions.contains (watchExt filePath) = true)
    (hvalid : isValidLanguageKey (watchLangName filePath) = true)
    (hunseen : assocLookup st.fileContents (watchLangName filePath) = none)
    (hparse : loadLanguageFile filePath (some newContent) decode = d)
    (hnotnull : d ≠ JSValue.vNull) :
    watchChangeHandler st filePath (some newContent) decode =
      ({ st with
          languages := mapSet st.languages (watchLangName filePath) d,
          fileContents :=
            mapSet st.fileContents (watchLangName filePath) newContent },
       [LoaderEvent.languageLoaded (watchLangName filePath) d]) := by
  simp only [watchLangName, watchExt] at hext hvalid hunseen ⊢
  unfold watchChangeHandler
  dsimp only
  rw [hext]
  simp only [Bool.true_eq_false, if_false]
  rw [hvalid]
  simp only [Bool.true_eq_false, if_false]
  rw [hunseen]
  rw [hparse]
  cases d with
  | vNull => exact absurd rfl hnotnull
  | vUndefined => rfl
  | vBool b => rfl
  | vStr s => rfl
  | vNum n => rfl
  | vObj fields => rfl

theorem watch_firstSeen_emitsLoaded_witness :
    watchChangeHandler ⟨[], [], "en_UK", "en_UK"⟩ "fr_FR.json"
        (some "fresh") (fun _ _ => some demoTree) =
      (⟨[("fr_FR", demoTree)], [("fr_FR", "fresh")], "en_UK", "en_UK"⟩,
       [LoaderEvent.languageLoaded "fr_FR" demoTree]) :=
  watch_firstSeen_emitsLoaded ⟨[], [], "en_UK", "en_UK"⟩ "fr_FR.json" "fresh"
    (fun _ _ => some demoTree) demoTree (by decide) (by decide) (by decide)
    rfl (fun h => JSValue.noConfusion h)

/-- C5: `loadlang` (resolveLanguage) with a valid code returns the entry for
that code when one is present, and otherwise the fallback language's entry —
never the default language's entry when the two differ. -/
theorem loadlang_usesFallbackNotDefault (st : LoaderState) (code : String)
    (hvalid : isValidLanguageKey code = true) :
    (mapHas st.languages code = false →
      loadlang st code = jsMapGet st.languages st.fallbackLanguage) ∧
    (mapHas st.languages code = true →
      loadlang st code = jsMapGet st.languages code) ∧
    (mapHas st.languages code = false →
      jsMapGet st.languages st.fallbackLanguage ≠
        jsMapGet st.languages st.defaultLanguage →
      loadlang st code ≠ jsMapGet st.languages st.defaultLanguage) := by
  refine ⟨?_, ?_, ?_⟩
  · intro habs
    unfold loadlang
    rw [hvalid]
    simp only [Bool.true_eq_false, if_false]
    rw [habs]
    simp
  · intro hpres
    unfold loadlang
    rw [hvalid]
    simp only [Bool.true_eq_false, if_false]
    rw [hpres]
    simp
  · intro habs hne
    unfold loadlang
    rw [hvalid]
    simp only [Bool.true_eq_false, if_false]
    rw [habs]
    simpa using hne

theorem loadlang_usesFallbackNotDefault_witness :
    loadlang demoStateTwo "fr_FR" =
      jsMapGet demoStateTwo.languages demoStateTwo.fallbackLanguage ∧
    loadlang demoStateTwo "en_UK" = jsMapGet demoStateTwo.languages "en_UK" ∧
    loadlang demoStateTwo "fr_FR" ≠
      jsMapGet demoStateTwo.languages demoStateTwo.defaultLanguage :=
  ⟨(loadlang_usesFallbackNotDefault demoStateTwo "fr_FR" (by decide)).1
      (by decide),
   (loadlang_usesFallbackNotDefault demoStateTwo "en_UK" (by decide)).2.1
      (by decide),
   (loadlang_usesFallbackNotDefault demoStateTwo "fr_FR" (by decide)).2.2
      (by decide)
      (by
        show jsMapGet demoStateTwo.languages "en_UK" ≠
          jsMapGet demoStateTwo.languages "de_DE"
        intro h
        have h2 : JSValue.vStr "english" = JSValue.vStr "german" := h
        simp at h2)⟩

/-- C10: `loadlang` and `loadlangmsg` disagree on falsy store entries.  For
a valid code whose entry is present but falsy, `loadlang` (which tests
presence with `Map.has`) returns the stored falsy value, while
`loadlangmsg` (which tests the looked-up value for truthiness) walks the
fallback language's tree instead. -/
theorem loadlang_loadlangmsg_disagreeOnFalsy (st : LoaderState)
    (code : String) (v : JSValue)
    (hvalid : isValidLanguageKey code = true)
    (hentry : assocLookup st.languages code = some v)
    (hfalsy : truthy v = false)
    (hfb : truthy (jsMapGet st.languages st.fallbackLanguage) = true) :
    loadlang st code = v ∧
    ∀ m, loadlangmsg st code m =
      walkKeys code m (strSplitOnDot m)
        (jsMapGet st.languages st.fallbackLanguage) := by
  constructor
  · unfold loadlang
    rw [hvalid]
    simp only [Bool.true_eq_false, if_false]
    unfold mapHas jsMapGet
    rw [hentry]
    simp
  · intro m
    unfold loadlangmsg
    rw [hvalid]
    simp only [Bool.true_eq_false, if_false]
    have hget : jsMapGet st.languages code = v := by
      unfold jsMapGet
      rw [hentry]
      rfl
    rw [hget, hfalsy]
    simp only [Bool.false_eq_true, if_false]
    rw [hfb]
    simp

theorem loadlang_loadlangmsg_disagreeOnFalsy_witness :
    loadlang demoStateNull "fr_FR" = JSValue.vNull ∧
    loadlangmsg demoStateNull "fr_FR" "welcome.message" =
      JSValue.vStr "Hello" :=
  ⟨(loadlang_loadlangmsg_disagreeOnFalsy demoStateNull "fr_FR" JSValue.vNull
      (by decide) rfl rfl rfl).1,
   by
    rw [(loadlang_loadlangmsg_disagreeOnFalsy demoStateNull "fr_FR"
        JSValue.vNull (by decide) rfl rfl rfl).2 "welcome.message"]
    rfl⟩

theorem walkKeys_fail (langKey messageKey : String) :
    ∀ (ks : List String) (d : JSValue), pathResolves d ks = none →
      walkKeys langKey messageKey ks d =
        JSValue.vStr
          ("Message key \"" ++ messageKey ++ "\" nicht gefunden in \"" ++
            langKey ++ "\".") := by
  intro ks
  induction ks with
  | nil =>
    intro d h
    simp [pathResolves] at h
  | cons key rest ih =>
    intro d h
    cases d with
    | vNull => rfl
    | vUndefined => rfl
    | vBool b => rfl
    | vStr s => rfl
    | vNum n => rfl
    | vObj fields =>
      unfold pathResolves at h
      unfold walkKeys
      dsimp only at h ⊢
      revert h
      cases hl : assocLookup fields key with
      | some v =>
        intro h
        dsimp only at h ⊢
        exact ih v h
      | none =>
        intro h
        rfl

theorem loadlangmsg_eq_walk (st : LoaderState) (langKey messageKey : String)
    (hvalid : isValidLanguageKey langKey = true)
    (htruthy : truthy (effectiveLangData st langKey) = true) :
    loadlangmsg st langKey messageKey =
      walkKeys langKey messageKey (strSplitOnDot messageKey)
        (effectiveLangData st langKey) := by
  unfold loadlangmsg effectiveLangData
  rw [hvalid]
  simp only [Bool.true_eq_false, if_false]
  unfold effectiveLangData at htruthy
  dsimp only at htruthy
  revert htruthy
  cases h0 : truthy (jsMapGet st.languages langKey) with
  | true =>
    intro htruthy
    simp [h0]
  | false =>
    intro htruthy
    simp only [Bool.false_eq_true, if_false] at htruthy ⊢
    simp [htruthy]

/-- C6: for a valid code whose effective tree (direct entry or fallback) is
truthy, any dotted path that fails to resolve makes `loadlangmsg`
(resolveMessage) return — not raise — a diagnostic string that contains
both the full dotted path and the requested locale code. -/
theorem loadlangmsg_missingKey_diagnostic (st : LoaderState)
    (langKey messageKey : String)
    (hvalid : isValidLanguageKey langKey = true)
    (htruthy : truthy (effectiveLangData st langKey) = true)
    (hfail : pathResolves (effectiveLangData st langKey)
      (strSplitOnDot messageKey) = none) :
    ∃ s, loadlangmsg st langKey messageKey = JSValue.vStr s ∧
      (∃ p q, s = p ++ messageKey ++ q) ∧
      (∃ p q, s = p ++ langKey ++ q) := by
  refine
    ⟨"Message key \"" ++ messageKey ++ "\" nicht gefunden in \"" ++
      langKey ++ "\".", ?_, ?_, ?_⟩
  · rw [loadlangmsg_eq_walk st langKey messageKey hvalid htruthy]
    exact walkKeys_fail langKey messageKey _ _ hfail
  · exact
      ⟨"Message key \"", "\" nicht gefunden in \"" ++ langKey ++ "\".",
        by simp only [strAppendAssoc]⟩
  · exact
      ⟨"Message key \"" ++ messageKey ++ "\" nicht gefunden in \"", "\".",
        by simp only [strAppendAssoc]⟩

theorem loadlangmsg_missingKey_diagnostic_witness :
    ∃ s, loadlangmsg demoState "en_UK" "welcome.nonexistent" =
        JSValue.vStr s ∧
      (∃ p q, s = p ++ "welcome.nonexistent" ++ q) ∧
      (∃ p q, s = p ++ "en_UK" ++ q) :=
  loadlangmsg_missingKey_diagnostic demoState "en_UK" "welcome.nonexistent"
    (by decide) rfl rfl

/-- C9: during the initial bulk load, a file with a recognized extension
whose decode succeeds but yields a falsy document is silently skipped by
the `if (langData)` truthiness check: the accumulator is returned entirely
unchanged — no store entry, no raw-text cache entry, `loadedCount` not
incremented, and the filename is never validated (the `validated` log is
untouched).  A bulk load over just that file yields the empty result. -/
theorem bulkLoad_falsyDoc_skipped (fsys : String → Option String)
    (decode : String → String → Option JSValue) (file : String)
    (hext : recognizedExtensions.contains (strToLower (extname file)) = true)
    (hfalsy : truthy (loadLanguageFile file (fsys file) decode) = false) :
    (∀ acc, loadLanguagesStep fsys decode acc file = acc) ∧
    loadLanguages (some [file]) fsys decode = ⟨[], [], 0, []⟩ := by
  have hstep : ∀ acc, loadLanguagesStep fsys decode acc file = acc := by
    intro acc
    unfold loadLanguagesStep
    dsimp only
    rw [hext, hfalsy]
    simp
  refine ⟨hstep, ?_⟩
  unfold loadLanguages
  simp only [List.foldl_cons, List.foldl_nil]
  exact hstep _

theorem bulkLoad_falsyDoc_skipped_witness :
    loadLanguagesStep (fun _ => some "") (fun _ _ => some JSValue.vUndefined)
        (⟨[], [], 0, []⟩ : BulkState) "en_UK.yaml" =
      (⟨[], [], 0, []⟩ : BulkState) ∧
    loadLanguages (some ["en_UK.yaml"]) (fun _ => some "")
        (fun _ _ => some JSValue.vUndefined) = (⟨[], [], 0, []⟩ : BulkState) :=
  ⟨(bulkLoad_falsyDoc_skipped (fun _ => some "")
      (fun _ _ => some JSValue.vUndefined) "en_UK.yaml" (by decide) rfl).1
      (⟨[], [], 0, []⟩ : BulkState),
   (bulkLoad_falsyDoc_skipped (fun _ => some "")
      (fun _ _ => some JSValue.vUndefined) "en_UK.yaml" (by decide) rfl).2⟩

theorem allKeysValid_mapSet {α : Type} (m : List (String × α)) (k : String)
    (v : α) (hk : isValidLanguageKey k = true)
    (hm : allKeysValid m = true) : allKeysValid (mapSet m k v) = true := by
  induction m with
  | nil =>
    simp [mapSet, allKeysValid, hk]
  | cons p rest ih =>
    obtain ⟨k0, v0⟩ := p
    simp only [allKeysValid, List.all_cons, Bool.and_eq_true] at hm
    by_cases h : k0 = k
    · subst h
      simp [mapSet, allKeysValid, hk, hm.2]
    · simp only [mapSet, if_neg h, allKeysValid, List.all_cons,
        Bool.and_eq_true]
      refine ⟨hm.1, ?_⟩
      exact ih hm.2

theorem loadLanguagesStep_keysValid (fsys : String → Option String)
    (decode : String → String → Option JSValue) (acc : BulkState)
    (file : String) (h : allKeysValid acc.languages = true) :
    allKeysValid (loadLanguagesStep fsys decode acc file).languages =
      true := by
  unfold loadLanguagesStep
  dsimp only
  cases hext : recognizedExtensions.contains (strToLower (extname file)) with
  | false => simpa using h
  | true =>
    simp only [if_true]
    cases ht : truthy (loadLanguageFile file (fsys file) decode) with
    | false => simpa using h
    | true =>
      simp only [if_true]
      cases hv : isValidLanguageKey
          (basenameExt file (strToLower (extname file))) with
      | false => simpa using h
      | true =>
        simp only [if_true]
        cases hr : fsys file with
        | none => simpa using h
        | some c =>
          exact allKeysValid_mapSet acc.languages _ _ hv h

theorem loadLanguages_keysValid (listing : Option (List String))
    (fsys : String → Option String)
    (decode : String → String → Option JSValue) :
    allKeysValid (loadLanguages listing fsys decode).languages = true := by
  unfold loadLanguages
  cases listing with
  | none => rfl
  | some files =>
    have hfold : ∀ (fs : List String) (acc : BulkState),
        allKeysValid acc.languages = true →
        allKeysValid
          ((fs.foldl (loadLanguagesStep fsys decode) acc)).languages =
          true := by
      intro fs
      induction fs with
      | nil => intro acc h; simpa using h
      | cons f rest ih =>
        intro acc h
        simp only [List.foldl_cons]
        exact ih _ (loadLanguagesStep_keysValid fsys decode acc f h)
    exact hfold files ⟨[], [], 0, []⟩ rfl

theorem watchChangeHandler_keysValid (st : LoaderState) (filePath : String)
    (readResult : Option String)
    (decode : String → String → Option JSValue)
    (h : allKeysValid st.languages = true) :
    allKeysValid
      (watchChangeHandler st filePath readResult decode).1.languages =
      true := by
  unfold watchChangeHandler
  dsimp only
  cases hext : recognizedExtensions.contains
      (strToLower (extname (basenameOnly filePath))) with
  | false => simpa using h
  | true =>
    simp only [Bool.true_eq_false, if_false]
    cases readResult with
    | none => simpa using h
    | some newFileContent =>
      cases hv : isValidLanguageKey
          (basenameExt (basenameOnly filePath)
            (strToLower (extname (basenameOnly filePath)))) with
      | false => simpa using h
      | true =>
        simp only [Bool.true_eq_false, if_false]
        cases hl : assocLookup st.fileContents
            (basenameExt (basenameOnly filePath)
              (strToLower (extname (basenameOnly filePath)))) with
        | none =>
          cases hd : loadLanguageFile filePath (some newFileContent)
              decode with
          | vNull => simpa using h
          | vUndefined => exact allKeysValid_mapSet st.languages _ _ hv h
          | vBool b => exact allKeysValid_mapSet st.languages _ _ hv h
          | vStr s => exact allKeysValid_mapSet st.languages _ _ hv h
          | vNum n => exact allKeysValid_mapSet st.languages _ _ hv h
          | vObj fields => exact allKeysValid_mapSet st.languages _ _ hv h
        | some oldFileContent =>
          by_cases hne : oldFileContent ≠ newFileContent
          · simp only [if_pos hne]
            cases hd : loadLanguageFile filePath (some newFileContent)
                decode with
            | vNull => simpa using h
            | vUndefined => exact allKeysValid_mapSet st.languages _ _ hv h
            | vBool b => exact allKeysValid_mapSet st.languages _ _ hv h
            | vStr s => exact allKeysValid_mapSet st.languages _ _ hv h
            | vNum n => exact allKeysValid_mapSet st.languages _ _ hv h
            | vObj fields => exact allKeysValid_mapSet st.languages _ _ hv h
          · simp only [if_neg hne]
            exact h

theorem updateLanguage_keysValid (st : LoaderState) (langKey : String)
    (filePathArg : Option String) (listing : Option (List String))
    (fsys : String → Option String)
    (decode : String → String → Option JSValue)
    (out : LoaderState × List LoaderEvent)
    (hrun : updateLanguage st langKey filePathArg listing fsys decode =
      some out)
    (h : allKeysValid st.languages = true) :
    allKeysValid out.1.languages = true := by
  unfold updateLanguage at hrun
  revert hrun
  cases hv : isValidLanguageKey langKey with
  | false =>
    intro hrun
    simp at hrun
    rw [← hrun]
    exact h
  | true =>
    intro hrun
    simp only [Bool.true_eq_false, if_false] at hrun
    have hmut : ∀ (filePath : String),
        (match fsys filePath with
          | none => some (st, ([] : List LoaderEvent))
          | some newFileContent =>
            some
              ({ st with
                  languages := mapSet st.languages langKey
                    (loadLanguageFile filePath (fsys filePath) decode),
                  fileContents :=
                    mapSet st.fileContents langKey newFileContent },
               [LoaderEvent.languageUpdatedKey langKey
                  (loadLanguageFile filePath (fsys filePath) decode)])) =
          some out →
        allKeysValid out.1.languages = true := by
      intro filePath
      cases hr : fsys filePath with
      | none =>
        intro hmatch
        simp at hmatch
        rw [← hmatch]
        exact h
      | some newFileContent =>
        intro hmatch
        simp only [Option.some.injEq] at hmatch
        rw [← hmatch]
        exact allKeysValid_mapSet st.languages _ _ hv h
    cases filePathArg with
    | some p =>
      dsimp only at hrun
      exact hmut p hrun
    | none =>
      cases listing with
      | none =>
        dsimp only at hrun
        exact Option.noConfusion hrun
      | some files =>
        dsimp only at hrun
        revert hrun
        cases hf : files.find? (fun f =>
            basenameExt f (extname f) = langKey &&
            recognizedExtensions.contains (strToLower (extname f))) with
        | none =>
          intro hrun
          simp at hrun
          rw [← hrun]
          exact h
        | some file =>
          intro hrun
          dsimp only at hrun
          exact hmut file hrun

/-- C3: no store entry keyed by a string failing the locale-code predicate
`^[a-z]{2}_[A-Z]{2}$` is ever created: the constructor's initial bulk load
produces only valid keys, and both the watch change handler and
`updateLanguage` (forceReload) preserve the all-keys-valid invariant of the
language store, regardless of file contents. -/
theorem storeKeys_alwaysValid :
    (∀ cfg listing fsys decode,
      allKeysValid (mkLoader cfg listing fsys decode).st.languages = true) ∧
    (∀ st filePath readResult decode,
      allKeysValid st.languages = true →
      allKeysValid
        (watchChangeHandler st filePath readResult decode).1.languages =
        true) ∧
    (∀ st langKey filePathArg listing fsys decode out,
      updateLanguage st langKey filePathArg listing fsys decode = some out →
      allKeysValid st.languages = true →
      allKeysValid out.1.languages = true) := by
  refine ⟨?_, ?_, ?_⟩
  · intro cfg listing fsys decode
    unfold mkLoader
    dsimp only
    cases hd : isValidLanguageKey cfg.defaultLang with
    | false => rfl
    | true =>
      simp only [Bool.true_eq_false, if_false]
      cases hf : isValidLanguageKey cfg.fallbackLang with
      | false => rfl
      | true =>
        simp only [Bool.true_eq_false, if_false]
        exact loadLanguages_keysValid listing fsys decode
  · intro st filePath readResult decode h
    exact watchChangeHandler_keysValid st filePath readResult decode h
  · intro st langKey filePathArg listing fsys decode out hrun h
    exact updateLanguage_keysValid st langKey filePathArg listing fsys
      decode out hrun h

theorem storeKeys_alwaysValid_witness :
    allKeysValid
      ((watchChangeHandler ⟨[], [], "en_UK", "en_UK"⟩ "bad-name.json"
        (some "x") (fun _ _ => some demoTree)).1.languages) = true ∧
    allKeysValid
      ((mkLoader ⟨"en_UK", "en_UK", false⟩
        (some ["en_UK.json", "bad-name.json"]) (fun _ => some "x")
        (fun _ _ => some demoTree)).st.languages) = true :=
  ⟨storeKeys_alwaysValid.2.1 ⟨[], [], "en_UK", "en_UK"⟩ "bad-name.json"
      (some "x") (fun _ _ => some demoTree) rfl,
   storeKeys_alwaysValid.1 ⟨"en_UK", "en_UK", false⟩
      (some ["en_UK.json", "bad-name.json"]) (fun _ => some "x")
      (fun _ _ => some demoTree)⟩
